import Mathlib

/-!
Verification of the single-line text-editing core of the ted-itor repository
(src/ui.rs: TextModel, the TextInput key handler, the TextDisplay click
handler).

Texts are embedded as lists of Unicode scalar values (List Char); the byte
offsets the source manipulates are recovered through Char.utf8Size, so every
selection offset of the Rust code is mirrored exactly.  Operations of the
source that can panic (string slicing or String::insert at a non-boundary
offset, Option::unwrap on a missing word range) return Option, with none
standing for the panic.
-/

namespace TedItor

/-- UTF-8 byte length of a text, the value of Rust str::len on the encoded
string. -/
def byteLen (cs : List Char) : Nat :=
  cs.foldr (fun c acc => c.utf8Size + acc) 0

/-- Splits a text at a byte offset, mirroring Rust string slicing
(text[..n], text[n..]): some (prefix, suffix) when n lands on a scalar-value
boundary of the encoding and none (a panic in Rust) otherwise. -/
def splitAtByte : List Char → Nat → Option (List Char × List Char)
  | cs, 0 => some ([], cs)
  | [], _ + 1 => none
  | c :: rest, n + 1 =>
    if c.utf8Size ≤ n + 1 then
      match splitAtByte rest (n + 1 - c.utf8Size) with
      | some (a, b) => some (c :: a, b)
      | none => none
    else none

/-- Whether a byte offset lands on a scalar-value boundary of the text. -/
def isBoundaryB (cs : List Char) (n : Nat) : Bool :=
  (splitAtByte cs n).isSome

/-- Rust String::replace_range(s..e, repl): none on the panics (s > e, or an
offset off a scalar-value boundary or past the end). -/
def replaceRange (cs : List Char) (s e : Nat) (repl : List Char) :
    Option (List Char) :=
  if s ≤ e then
    match splitAtByte cs s with
    | none => none
    | some (pre, rest) =>
      match splitAtByte rest (e - s) with
      | none => none
      | some (_, post) => some (pre ++ repl ++ post)
  else none

/-- Rust string slicing text[s..e]: none on the panics. -/
def sliceRange (cs : List Char) (s e : Nat) : Option (List Char) :=
  if s ≤ e then
    match splitAtByte cs s with
    | none => none
    | some (_, rest) =>
      match splitAtByte rest (e - s) with
      | none => none
      | some (mid, _) => some mid
  else none

/-- State of ui.rs TextModel: the text, the selection as half-open byte
range start..end, and the word_click pair (last clicked word index, click
count).  The u16 click counter of the source is widened to Nat; no claim
reaches the u16 range. -/
structure TextModel where
  text : List Char
  selStart : Nat
  selEnd : Nat
  wordClickIndex : Nat
  wordClickCount : Nat
deriving DecidableEq

/-- TextModel::init places the caret collapsed at end-of-text and clears
word_click. -/
def initModel (t : List Char) : TextModel :=
  { text := t, selStart := byteLen t, selEnd := byteLen t,
    wordClickIndex := 0, wordClickCount := 0 }

/-- Whether a scalar value is word-forming in TextModel::word_ranges:
c.is_alphanumeric() || c == '_' in the source.  Char.isAlphanum stands in
for Rust char::is_alphanumeric; the two agree on every ASCII scalar value,
and all inputs examined here are ASCII. -/
def isWordChar (c : Char) : Bool :=
  c.isAlphanum || c == '_'

/-- Loop body of TextModel::word_ranges: i is the byte offset of the next
scalar value, lastB the last_was_boundary flag, ws the recorded word_start.
Ranges are emitted in the order the source pushes them. -/
def wordRangesGo : List Char → Nat → Bool → Nat → List (Nat × Nat)
  | [], i, lastB, ws => if lastB then [] else [(ws, i)]
  | c :: rest, i, lastB, ws =>
    if isWordChar c then
      wordRangesGo rest (i + c.utf8Size) false (if lastB then i else ws)
    else
      if lastB then wordRangesGo rest (i + c.utf8Size) true ws
      else (ws, i) :: wordRangesGo rest (i + c.utf8Size) true ws

/-- TextModel::word_ranges on a text. -/
def word_ranges (text : List Char) : List (Nat × Nat) :=
  wordRangesGo text 0 true 0

mutual

/-- Spec-side description of word segmentation, formalised from the words of
the spec for comparison with the source-derived word_ranges: the maximal
runs of word-forming scalar values, as half-open byte ranges in
left-to-right order.  Scans the text outside any run; i is the byte offset
of the next scalar value. -/
def runsOutside : List Char → Nat → List (Nat × Nat)
  | [], _ => []
  | c :: rest, i =>
    if isWordChar c then runsInside rest (i + c.utf8Size) i
    else runsOutside rest (i + c.utf8Size)

/-- Spec-side scan inside a maximal run that started at byte offset ws:
the run extends until the first non-word-forming scalar value or the end
of the text, at which point the half-open range is emitted. -/
def runsInside : List Char → Nat → Nat → List (Nat × Nat)
  | [], i, ws => [(ws, i)]
  | c :: rest, i, ws =>
    if isWordChar c then runsInside rest (i + c.utf8Size) ws
    else (ws, i) :: runsOutside rest (i + c.utf8Size)

end

/-- The text "hello world" used by the click-escalation scenarios. -/
def helloWorld : List Char :=
  ['h', 'e', 'l', 'l', 'o', ' ', 'w', 'o', 'r', 'l', 'd']

/-- The discrete commands the host can deliver to the core: the cmd-chords,
plain character insertion (the ime_key path), the named editing keys, a
click resolved to a word-range index, TextModel::reset, and an
unhandled/unknown key. -/
inductive Command where
  | selectAll
  | copy
  | paste (clip : Option (List Char))
  | cut
  | insertText (s : List Char)
  | moveLeft
  | moveRight
  | backspace
  | insertNewline
  | clickAtWord (ev : Nat)
  | reset
  | unknownKey
deriving DecidableEq

/-- One atomic state transition of the core, translated arm by arm from the
on_key_down handler of TextInput::render, the on_click handler of
TextDisplay::render, and TextModel::reset.  Every key-handler path (and
reset) ends in cx.emit(TextEvent::Input ...), whose subscription installed
in TextModel::init sets word_click back to (0, 0); the click handler does
not emit Input and keeps its own word_click update.  none models a Rust
panic. -/
def step (m : TextModel) : Command → Option TextModel
  | .selectAll =>
    some { text := m.text, selStart := 0, selEnd := byteLen m.text,
           wordClickIndex := 0, wordClickCount := 0 }
  | .copy =>
    match sliceRange m.text m.selStart m.selEnd with
    | none => none
    | some _ =>
      some { text := m.text, selStart := m.selStart, selEnd := m.selEnd,
             wordClickIndex := 0, wordClickCount := 0 }
  | .paste clip =>
    match clip with
    | none =>
      some { text := m.text, selStart := m.selStart, selEnd := m.selEnd,
             wordClickIndex := 0, wordClickCount := 0 }
    | some t =>
      match replaceRange m.text m.selStart m.selEnd t with
      | none => none
      | some newText =>
        some { text := newText, selStart := m.selStart + byteLen t,
               selEnd := m.selStart + byteLen t,
               wordClickIndex := 0, wordClickCount := 0 }
  | .cut =>
    match sliceRange m.text m.selStart m.selEnd with
    | none => none
    | some _ =>
      match replaceRange m.text m.selStart m.selEnd [] with
      | none => none
      | some newText =>
        some { text := newText, selStart := m.selStart, selEnd := m.selStart,
               wordClickIndex := 0, wordClickCount := 0 }
  | .insertText s =>
    match replaceRange m.text m.selStart m.selEnd s with
    | none => none
    | some newText =>
      some { text := newText, selStart := m.selStart + byteLen s,
             selEnd := m.selStart + byteLen s,
             wordClickIndex := 0, wordClickCount := 0 }
  | .moveLeft =>
    if 0 < m.selStart then
      let i := if m.selStart = m.selEnd then m.selStart - 1 else m.selStart
      some { text := m.text, selStart := i, selEnd := i,
             wordClickIndex := 0, wordClickCount := 0 }
    else
      some { text := m.text, selStart := m.selStart, selEnd := m.selEnd,
             wordClickIndex := 0, wordClickCount := 0 }
  | .moveRight =>
    if m.selEnd < byteLen m.text then
      let i := if m.selStart = m.selEnd then m.selEnd + 1 else m.selEnd
      some { text := m.text, selStart := i, selEnd := i,
             wordClickIndex := 0, wordClickCount := 0 }
    else
      some { text := m.text, selStart := m.selStart, selEnd := m.selEnd,
             wordClickIndex := 0, wordClickCount := 0 }
  | .backspace =>
    if m.selStart = m.selEnd ∧ 0 < m.selStart then
      match splitAtByte m.text m.selStart with
      | none => none
      | some (pre, post) =>
        some { text := pre.dropLast ++ post,
               selStart := byteLen pre.dropLast,
               selEnd := byteLen pre.dropLast,
               wordClickIndex := 0, wordClickCount := 0 }
    else
      match replaceRange m.text m.selStart m.selEnd [] with
      | none => none
      | some newText =>
        some { text := newText, selStart := m.selStart, selEnd := m.selStart,
               wordClickIndex := 0, wordClickCount := 0 }
  | .insertNewline =>
    match splitAtByte m.text m.selStart with
    | none => none
    | some (pre, post) =>
      some { text := pre ++ '\n' :: post, selStart := m.selStart + 1,
             selEnd := m.selStart + 1,
             wordClickIndex := 0, wordClickCount := 0 }
  | .clickAtWord ev =>
    let count := if m.wordClickIndex = ev then m.wordClickCount + 1 else 1
    match count with
    | 2 =>
      match (word_ranges m.text).get? ev with
      | none => none
      | some r =>
        some { text := m.text, selStart := r.1, selEnd := r.2,
               wordClickIndex := ev, wordClickCount := 2 }
    | 4 =>
      some { text := m.text, selStart := 0, selEnd := byteLen m.text,
             wordClickIndex := ev, wordClickCount := 0 }
    | c =>
      some { text := m.text, selStart := m.selStart, selEnd := m.selEnd,
             wordClickIndex := ev, wordClickCount := c }
  | .reset =>
    some { text := [], selStart := 0, selEnd := 0,
           wordClickIndex := 0, wordClickCount := 0 }
  | .unknownKey =>
    some { text := m.text, selStart := m.selStart, selEnd := m.selEnd,
           wordClickIndex := 0, wordClickCount := 0 }

/-- Runs a sequence of commands, stopping at the first panic. -/
def runCmds (m : TextModel) : List Command → Option TextModel
  | [] => some m
  | c :: rest =>
    match step m c with
    | none => none
    | some m2 => runCmds m2 rest

/-! Helper lemmas. -/

theorem byteLen_cons (c : Char) (cs : List Char) :
    byteLen (c :: cs) = c.utf8Size + byteLen cs := rfl

theorem byteLen_append (a b : List Char) :
    byteLen (a ++ b) = byteLen a + byteLen b := by
  induction a with
  | nil => simp [byteLen]
  | cons c rest ih => simp [byteLen_cons, ih, Nat.add_assoc]

theorem splitAtByte_self (cs : List Char) :
    splitAtByte cs (byteLen cs) = some (cs, []) := by
  induction cs with
  | nil => rfl
  | cons c rest ih =>
    have hpos : 0 < c.utf8Size := c.utf8Size_pos
    obtain ⟨k, hk⟩ : ∃ k, byteLen (c :: rest) = k + 1 := by
      rw [byteLen_cons]
      exact ⟨c.utf8Size + byteLen rest - 1, by omega⟩
    have hle : c.utf8Size ≤ k + 1 := by rw [byteLen_cons] at hk; omega
    have hsub : k + 1 - c.utf8Size = byteLen rest := by
      rw [byteLen_cons] at hk; omega
    rw [hk]
    simp only [splitAtByte, if_pos hle, hsub, ih]

theorem wordRangesGo_eq_runs (cs : List Char) : ∀ i ws,
    wordRangesGo cs i true ws = runsOutside cs i ∧
    wordRangesGo cs i false ws = runsInside cs i ws := by
  induction cs with
  | nil =>
    intro i ws
    constructor <;> simp [wordRangesGo, runsOutside, runsInside]
  | cons c rest ih =>
    intro i ws
    by_cases h : isWordChar c
    · constructor
      · simp only [wordRangesGo, runsOutside, h, if_true]
        exact (ih (i + c.utf8Size) i).2
      · simp only [wordRangesGo, runsInside, h, if_true]
        exact (ih (i + c.utf8Size) ws).2
    · constructor
      · simp only [wordRangesGo, runsOutside, h, Bool.false_eq_true, if_false]
        exact (ih (i + c.utf8Size) ws).1
      · simp only [wordRangesGo, runsInside, h, Bool.false_eq_true, if_false]
        rw [(ih (i + c.utf8Size) ws).1]

/-! Claim theorems. -/

/-- Claim C1: the spec asserts that after any sequence of commands the
selection offsets land on UTF-8 scalar-value boundaries.  Evaluating the
code at the failing input: a session started on the text "é" (one two-byte
scalar value, caret collapsed at end-of-text) followed by the single
command move_left yields selection 1..1, and byte offset 1 is not a
scalar-value boundary of that text — the left-arrow handler subtracts one
raw byte from selection.start. -/
theorem moveLeft_breaks_boundary_invariant :
    runCmds (initModel ['é']) [Command.moveLeft] = some ⟨['é'], 1, 1, 0, 0⟩
      ∧ isBoundaryB ['é'] 1 = false :=
  ⟨by decide, by decide⟩

/-- Claim C2 (counterexample): on the text "é" with the caret collapsed at
byte offset 2, the claim says move_left lands on the scalar-value boundary
immediately before 2, which is 0; the code instead lands at byte offset 1,
inside the two-byte scalar value. -/
theorem moveLeft_raw_byte_counterexample :
    step ⟨['é'], 2, 2, 0, 0⟩ Command.moveLeft = some ⟨['é'], 1, 1, 0, 0⟩
      ∧ isBoundaryB ['é'] 1 = false :=
  ⟨by decide, by decide⟩

/-- Claim C2 (amended): when selection.start > 0, move_left with a
collapsed selection moves the caret to byte offset start - 1 by raw byte
arithmetic (which may land inside a multi-byte scalar value), and with an
expanded selection collapses it to start; when start = 0 the selection is
left unchanged, even when expanded.  move_right mirrors this under the
guard end < len(text): collapsed moves to end + 1, expanded collapses to
end, and otherwise the selection is unchanged.  Every arm resets
word_click through the Input notification. -/
theorem moveLeft_moveRight_behaviour :
    (∀ m : TextModel, 0 < m.selStart → m.selStart = m.selEnd →
      step m Command.moveLeft
        = some ⟨m.text, m.selStart - 1, m.selStart - 1, 0, 0⟩)
  ∧ (∀ m : TextModel, 0 < m.selStart → m.selStart ≠ m.selEnd →
      step m Command.moveLeft
        = some ⟨m.text, m.selStart, m.selStart, 0, 0⟩)
  ∧ (∀ m : TextModel, m.selStart = 0 →
      step m Command.moveLeft
        = some ⟨m.text, m.selStart, m.selEnd, 0, 0⟩)
  ∧ (∀ m : TextModel, m.selEnd < byteLen m.text → m.selStart = m.selEnd →
      step m Command.moveRight
        = some ⟨m.text, m.selEnd + 1, m.selEnd + 1, 0, 0⟩)
  ∧ (∀ m : TextModel, m.selEnd < byteLen m.text → m.selStart ≠ m.selEnd →
      step m Command.moveRight
        = some ⟨m.text, m.selEnd, m.selEnd, 0, 0⟩)
  ∧ (∀ m : TextModel, ¬ m.selEnd < byteLen m.text →
      step m Command.moveRight
        = some ⟨m.text, m.selStart, m.selEnd, 0, 0⟩) := by
  refine ⟨?_, ?_, ?_, ?_, ?_, ?_⟩
  · intro m h1 h2; simp [step, if_pos h1, if_pos h2]
  · intro m h1 h2; simp [step, if_pos h1, if_neg h2]
  · intro m h1
    have : ¬ 0 < m.selStart := by omega
    simp [step, if_neg this]
  · intro m h1 h2; simp [step, if_pos h1, if_pos h2]
  · intro m h1 h2; simp [step, if_pos h1, if_neg h2]
  · intro m h1; simp [step, if_neg h1]

/-- Claim C2 (witness): the amended theorem instantiated at concrete
states, one collapsed move_left and one expanded move_right. -/
theorem moveLeft_moveRight_behaviour_witness :
    (0 < 2 ∧ (2 : Nat) = 2 ∧
      step ⟨['a', 'é'], 2, 2, 7, 3⟩ Command.moveLeft
        = some ⟨['a', 'é'], 1, 1, 0, 0⟩)
  ∧ (2 < byteLen ['a', 'b', 'c'] ∧ (1 : Nat) ≠ 2 ∧
      step ⟨['a', 'b', 'c'], 1, 2, 0, 0⟩ Command.moveRight
        = some ⟨['a', 'b', 'c'], 2, 2, 0, 0⟩) :=
  ⟨⟨by decide, rfl,
      moveLeft_moveRight_behaviour.1 ⟨['a', 'é'], 2, 2, 7, 3⟩ (by decide) rfl⟩,
   ⟨by decide, by decide,
      moveLeft_moveRight_behaviour.2.2.2.2.1 ⟨['a', 'b', 'c'], 1, 2, 0, 0⟩
        (by decide) (by decide)⟩⟩

/-- Claim C3 (counterexample): on the text "ab" with the whole text
selected (selection 0..2), the claim predicts that insert_newline removes
the selected "ab", leaving just the line break; the code instead calls
String::insert at selection.start and yields the text "\nab" with the
selected text still present. -/
theorem insertNewline_keeps_selection_counterexample :
    step ⟨['a', 'b'], 0, 2, 0, 0⟩ Command.insertNewline
      = some ⟨['\n', 'a', 'b'], 1, 1, 0, 0⟩
  ∧ (['\n', 'a', 'b'] : List Char) ≠ ['\n'] :=
  ⟨by decide, by decide⟩

/-- Claim C3 (amended): insert_newline inserts a single line-break scalar
value at the selection start WITHOUT removing the selected text, and the
caret collapses one byte after the inserted line break (word_click resets
through the Input notification). -/
theorem insertNewline_inserts_at_start (m : TextModel) (pre post : List Char)
    (h : splitAtByte m.text m.selStart = some (pre, post)) :
    step m Command.insertNewline
      = some ⟨pre ++ '\n' :: post, m.selStart + 1, m.selStart + 1, 0, 0⟩ := by
  simp [step, h]

/-- Claim C3 (witness): the amended theorem instantiated on the text "ab"
with selection 1..2. -/
theorem insertNewline_inserts_at_start_witness :
    splitAtByte ['a', 'b'] 1 = some (['a'], ['b'])
  ∧ step ⟨['a', 'b'], 1, 2, 5, 5⟩ Command.insertNewline
      = some ⟨['a', '\n', 'b'], 2, 2, 0, 0⟩ :=
  ⟨by decide,
   insertNewline_inserts_at_start ⟨['a', 'b'], 1, 2, 5, 5⟩ ['a'] ['b']
     (by decide)⟩

/-- Claim C4 (counterexample): with text "abc" and selection 0..2, pasting
while the clipboard holds the empty string is claimed to be a no-op; the
code instead replaces the selected span "ab" with the empty string,
leaving text "c" with a collapsed caret at 0. -/
theorem paste_empty_clipboard_counterexample :
    step ⟨['a', 'b', 'c'], 0, 2, 0, 0⟩ (Command.paste (some []))
      = some ⟨['c'], 0, 0, 0, 0⟩
  ∧ (['c'] : List Char) ≠ ['a', 'b', 'c'] :=
  ⟨by decide, by decide⟩

/-- Claim C4 (amended): paste with the clipboard unavailable leaves the
text and the selection unchanged (only word_click resets through the Input
notification); paste of the empty clipboard string instead replaces the
selected span with the empty string — deleting it — and collapses the
caret at the selection start. -/
theorem paste_none_noop_empty_deletes :
    (∀ m : TextModel, step m (Command.paste none)
        = some ⟨m.text, m.selStart, m.selEnd, 0, 0⟩)
  ∧ (∀ (m : TextModel) (t : List Char),
      replaceRange m.text m.selStart m.selEnd [] = some t →
      step m (Command.paste (some []))
        = some ⟨t, m.selStart, m.selStart, 0, 0⟩) := by
  constructor
  · intro m; rfl
  · intro m t h; simp [step, h, byteLen]

/-- Claim C4 (witness): the amended theorem instantiated on the text "xy"
with selection 0..1 and an empty clipboard string. -/
theorem paste_none_noop_empty_deletes_witness :
    replaceRange ['x', 'y'] 0 1 [] = some ['y']
  ∧ step ⟨['x', 'y'], 0, 1, 0, 0⟩ (Command.paste (some []))
      = some ⟨['y'], 0, 0, 0, 0⟩ :=
  ⟨by decide,
   paste_none_noop_empty_deletes.2 ⟨['x', 'y'], 0, 1, 0, 0⟩ ['y'] (by decide)⟩

/-- Claim C5: the spec claims a click at an invalid word index is a no-op
that never escalates the counter and never crashes.  Evaluating the code at
the failing input: on "hello world" (word ranges 0..5 and 6..11, so index 5
is invalid) a first click at index 5 already stores the index and sets the
counter to 1, and the second click at index 5 reaches the double-click tier
and panics at word_ranges.get(ev).unwrap() — modelled as none. -/
theorem clickAtWord_invalid_index_panics :
    step ⟨helloWorld, 11, 11, 0, 0⟩ (Command.clickAtWord 5)
      = some ⟨helloWorld, 11, 11, 5, 1⟩
  ∧ step ⟨helloWorld, 11, 11, 5, 1⟩ (Command.clickAtWord 5) = none :=
  ⟨by decide, by decide⟩

/-- Claim C6: word_ranges coincides with the spec-side maximal-run scan
(runsOutside), producing the maximal runs of alphanumeric-or-underscore
scalar values as half-open byte ranges in left-to-right order, and on the
concrete examples yields [], [(0,3)], [(0,3),(4,7)], [] and
[(0,4),(5,6)]. -/
theorem word_ranges_correct :
    word_ranges [] = []
  ∧ word_ranges ['a', 'b', 'c'] = [(0, 3)]
  ∧ word_ranges ['f', 'o', 'o', ' ', 'b', 'a', 'r'] = [(0, 3), (4, 7)]
  ∧ word_ranges [' ', ' '] = []
  ∧ word_ranges ['a', '_', 'b', '2', ' ', 'c'] = [(0, 4), (5, 6)]
  ∧ ∀ cs : List Char, word_ranges cs = runsOutside cs 0 :=
  ⟨by decide, by decide, by decide, by decide, by decide,
   fun cs => (wordRangesGo_eq_runs cs 0 0).1⟩

/-- Claim C7: five successive clicks at word index 0 on a fresh session
over "hello world": click 1 keeps the selection (caret 11..11) with count
1; click 2 selects the word 0..5; click 3 keeps the selection (line-select
stub); click 4 selects 0..11 and resets the count to 0; click 5 behaves
like click 1 again (count 1, selection kept). -/
theorem click_escalation_cycle :
    step (initModel helloWorld) (Command.clickAtWord 0)
      = some ⟨helloWorld, 11, 11, 0, 1⟩
  ∧ step ⟨helloWorld, 11, 11, 0, 1⟩ (Command.clickAtWord 0)
      = some ⟨helloWorld, 0, 5, 0, 2⟩
  ∧ step ⟨helloWorld, 0, 5, 0, 2⟩ (Command.clickAtWord 0)
      = some ⟨helloWorld, 0, 5, 0, 3⟩
  ∧ step ⟨helloWorld, 0, 5, 0, 3⟩ (Command.clickAtWord 0)
      = some ⟨helloWorld, 0, 11, 0, 0⟩
  ∧ step ⟨helloWorld, 0, 11, 0, 0⟩ (Command.clickAtWord 0)
      = some ⟨helloWorld, 0, 11, 0, 1⟩ :=
  ⟨by decide, by decide, by decide, by decide, by decide⟩

/-- Claim C8: for every text ending in a scalar value whose UTF-8 encoding
is multi-byte, backspace with the caret collapsed at end-of-text removes
exactly that one scalar value and collapses the caret at the new
end-of-text; the resulting text is by construction a valid scalar-value
sequence. -/
theorem backspace_end_multibyte (cs : List Char) (c : Char)
    (h : 2 ≤ c.utf8Size) (wi wc : Nat) :
    step ⟨cs ++ [c], byteLen (cs ++ [c]), byteLen (cs ++ [c]), wi, wc⟩
        Command.backspace
      = some ⟨cs, byteLen cs, byteLen cs, 0, 0⟩ := by
  have hpos : 0 < byteLen (cs ++ [c]) := by
    rw [byteLen_append]
    have hc : byteLen [c] = c.utf8Size := by simp [byteLen]
    omega
  have hsplit := splitAtByte_self (cs ++ [c])
  simp only [step]
  rw [if_pos ⟨trivial, hpos⟩]
  simp [hsplit, List.dropLast_concat]

/-- Claim C8 (witness): backspace at end-of-text on "café" (the final é is
two bytes) leaves "caf" with the caret collapsed at the new end. -/
theorem backspace_end_multibyte_witness :
    2 ≤ Char.utf8Size 'é'
  ∧ step ⟨['c', 'a', 'f', 'é'], byteLen ['c', 'a', 'f', 'é'],
          byteLen ['c', 'a', 'f', 'é'], 0, 0⟩ Command.backspace
      = some ⟨['c', 'a', 'f'], byteLen ['c', 'a', 'f'],
              byteLen ['c', 'a', 'f'], 0, 0⟩ :=
  ⟨by decide, backspace_end_multibyte ['c', 'a', 'f'] 'é' (by decide) 0 0⟩

/-- Claim C9 (counterexample): an unhandled key on the state with text "a",
caret 1..1 and word_click (2, 1) is claimed to leave the entire state
unchanged; the code falls through to the Input emission, whose
subscription resets word_click to (0, 0), so the state differs. -/
theorem unknownKey_counterexample :
    step ⟨['a'], 1, 1, 2, 1⟩ Command.unknownKey = some ⟨['a'], 1, 1, 0, 0⟩
  ∧ (⟨['a'], 1, 1, 0, 0⟩ : TextModel) ≠ ⟨['a'], 1, 1, 2, 1⟩ :=
  ⟨by decide, by decide⟩

/-- Claim C9 (amended): an unhandled/unknown key command leaves the text
and the selection unchanged, but the Input notification it still emits
resets the click-escalation state word_click to (0, 0). -/
theorem unknownKey_keeps_text_and_selection (m : TextModel) :
    step m Command.unknownKey
      = some ⟨m.text, m.selStart, m.selEnd, 0, 0⟩ := rfl

/-- Claim C10: whenever click_at_word returns a state (it can panic on an
invalid index at the double-click tier), the text is unchanged — only the
selection and the click-escalation state may differ. -/
theorem clickAtWord_preserves_text (m : TextModel) (ev : Nat)
    (m2 : TextModel) (h : step m (Command.clickAtWord ev) = some m2) :
    m2.text = m.text := by
  simp only [step] at h
  split at h
  · split at h
    · exact absurd h (by simp)
    · cases h; rfl
  · cases h; rfl
  · cases h; rfl

/-- Claim C10 (witness): a concrete first click at word index 0 on the
text "a" keeps the text. -/
theorem clickAtWord_preserves_text_witness :
    step ⟨['a'], 1, 1, 0, 0⟩ (Command.clickAtWord 0)
      = some ⟨['a'], 1, 1, 0, 1⟩
  ∧ (⟨['a'], 1, 1, 0, 1⟩ : TextModel).text
      = (⟨['a'], 1, 1, 0, 0⟩ : TextModel).text :=
  ⟨by decide,
   clickAtWord_preserves_text ⟨['a'], 1, 1, 0, 0⟩ 0 ⟨['a'], 1, 1, 0, 1⟩
     (by decide)⟩

end TedItor
